import Mathlib

/-
Verification of the switch-input repository core (Go sources under src/):
the rule matcher (buildRuleMap / MatchWindow in the matcher service), the
config store (LoadConfig / SaveConfig / AddRule / UpdateRule), the logger
(log / flush / rotateLogIfNeeded) and the window monitor (StartMonitoring).

Go strings are modelled as lists of characters; the ASCII fragment of the
Go `strings` helpers used by the source is embedded below.  Go `int` is
modelled as `Int`.  Go's `sync.RWMutex` is not reentrant: a goroutine that
holds the write lock and calls `Lock` again blocks forever; operations that
can block forever return `Option` results, with `none` for "never returns".
-/

set_option maxHeartbeats 1000000

abbrev Str := List Char

/-- The characters trimmed by `strings.TrimSpace` (ASCII / Latin-1 part;
the source only ever trims ASCII app and window names). -/
def goIsSpace (c : Char) : Bool :=
  c = ' ' || c = '\t' || c = '\n' || c = '\x0b' || c = '\x0c' || c = '\r'

/-- Model of Go `strings.TrimSpace`. -/
def goTrimSpace (s : Str) : Str :=
  ((s.dropWhile goIsSpace).reverse.dropWhile goIsSpace).reverse

/-- Model of Go `strings.ToLower` (ASCII range, which covers the data used
by the program). -/
def goToLower (s : Str) : Str :=
  s.map Char.toLower

/-- Whether `s` starts with `p` (Go `strings.HasPrefix`). -/
def goStartsWith : Str → Str → Bool
  | _, [] => true
  | [], _ :: _ => false
  | c :: s, p :: ps => c = p && goStartsWith s ps

/-- Model of Go `strings.Contains`. -/
def goContains : Str → Str → Bool
  | [], sub => goStartsWith [] sub
  | c :: t, sub => goStartsWith (c :: t) sub || goContains t sub

/-- Model of Go `strings.Split` with a one-character separator (the source
splits on "," and on " " only). -/
def goSplitChar (c : Char) : Str → List Str
  | [] => [[]]
  | x :: xs =>
    match goSplitChar c xs with
    | [] => [[]]
    | y :: ys => if x = c then [] :: y :: ys else (x :: y) :: ys

/-- Model of Go `strings.ReplaceAll` (non-empty pattern; the source only
replaces "*" and ".*"). -/
def goReplaceAll : Str → Str → Str → Str
  | [], _, _ => []
  | x :: xs, pat, rep =>
    if h : pat ≠ [] ∧ goStartsWith (x :: xs) pat then
      rep ++ goReplaceAll ((x :: xs).drop pat.length) pat rep
    else
      x :: goReplaceAll xs pat rep
termination_by s => s.length
decreasing_by
  · simp only [List.length_drop]
    cases pat with
    | nil => exact absurd rfl h.1
    | cons p ps => simp [List.length_cons]; omega
  · simp [List.length_cons]

/-- Rule from the matcher service (JSON fields app/window/input/enabled/priority). -/
structure Rule where
  appName : Str
  windowName : Str
  input : Str
  enabled : Bool
  priority : Int
deriving DecidableEq, Inhabited

/-- WindowInfo from the window service. -/
structure WindowInfo where
  appName : Str
  appPath : Str
  windowName : Str
  pid : Int
deriving DecidableEq, Inhabited

/-- GeneralConfig from the matcher service. -/
structure GeneralConfig where
  autoStart : Bool
  checkInterval : Int
  switchDelay : Int
  enableLogging : Bool
  logLevel : Str
  showNotifications : Bool
deriving DecidableEq, Inhabited

/-- windowNameMatches from the matcher service: empty rule pattern matches
everything; a pattern containing "*" matches by containment of the pattern
with the stars deleted; otherwise plain containment, all case-insensitively. -/
def windowNameMatches (currentWindowName ruleWindowName : Str) : Bool :=
  if ruleWindowName = [] then true
  else
    let currentWindowName := goToLower (goTrimSpace currentWindowName)
    let ruleWindowName := goToLower (goTrimSpace ruleWindowName)
    if goContains ruleWindowName ['*'] then
      let pattern := goReplaceAll ruleWindowName ['*'] ['.', '*']
      goContains currentWindowName (goReplaceAll pattern ['.', '*'] [])
    else
      goContains currentWindowName ruleWindowName

/-- appNameMatches from the matcher service: case-insensitive equality,
bidirectional containment, or containment of any space-delimited token of
the rule's app pattern. -/
def appNameMatches (currentAppName ruleAppName : Str) : Bool :=
  let currentAppName := goToLower (goTrimSpace currentAppName)
  let ruleAppName := goToLower (goTrimSpace ruleAppName)
  if currentAppName = ruleAppName then true
  else if goContains currentAppName ruleAppName || goContains ruleAppName currentAppName then true
  else
    (goSplitChar ' ' ruleAppName).any
      (fun part => goTrimSpace part ≠ [] && goContains currentAppName part)

/-- The rule index `ruleMap map[string][]Rule`, modelled as an association
list with pairwise-distinct keys (Go map iteration order is a parameter of
`MatchWindow` below). -/
abbrev RuleMap := List (Str × List Rule)

/-- Go `ms.ruleMap[appName] = append(ms.ruleMap[appName], rule)`. -/
def mapAppend : RuleMap → Str → Rule → RuleMap
  | [], k, r => [(k, [r])]
  | (k', rs) :: m, k, r =>
    if k' = k then (k', rs ++ [r]) :: m else (k', rs) :: mapAppend m k r

/-- Go map lookup `ms.ruleMap[appName]` (second component of the two-value
form; `none` when the key is absent). -/
def mapLookup : RuleMap → Str → Option (List Rule)
  | [], _ => none
  | (k, rs) :: m, key => if k = key then some rs else mapLookup m key

/-- Priority of the element at index `k` (loops only read in-bounds indices). -/
def prioAt (rs : List Rule) (k : Nat) : Int :=
  (rs.getD k default).priority

/-- Go parallel assignment `rules[i], rules[j] = rules[j], rules[i]`. -/
def listSwap (rs : List Rule) (i j : Nat) : List Rule :=
  (rs.set i (rs.getD j default)).set j (rs.getD i default)

/-- Inner loop `for j := i + 1; j < len(rules); j++` of the priority sort in
buildRuleMap; `fuel` bounds the remaining iterations and is always at least
`rs.length - j` at call sites, which makes it exact. -/
def innerLoop : List Rule → Nat → Nat → Nat → List Rule
  | rs, _, _, 0 => rs
  | rs, i, j, fuel + 1 =>
    if j < rs.length then
      innerLoop (if prioAt rs i > prioAt rs j then listSwap rs i j else rs) i (j + 1) fuel
    else rs

/-- Outer loop `for i := 0; i < len(rules)-1; i++` of the priority sort in
buildRuleMap. -/
def outerLoop : List Rule → Nat → Nat → List Rule
  | rs, _, 0 => rs
  | rs, i, fuel + 1 =>
    if i < rs.length - 1 then
      outerLoop (innerLoop rs i (i + 1) (rs.length - (i + 1))) (i + 1) fuel
    else rs

/-- The in-place exchange sort at the end of buildRuleMap ("对每个应用的
规则按优先级排序"): compares `rules[i].Priority > rules[j].Priority` for all
`i < j` and swaps. -/
def sortRulesByPriority (rs : List Rule) : List Rule :=
  outerLoop rs 0 rs.length

/-- Body of the token loop in buildRuleMap: trim the comma-token and, when
non-empty, append the rule to that token's bucket. -/
def insertToken (rule : Rule) (m : RuleMap) (appName : Str) : RuleMap :=
  let appName := goTrimSpace appName
  if appName ≠ [] then mapAppend m appName rule else m

/-- Body of the rule loop in buildRuleMap: skip disabled rules, otherwise
insert the rule under every comma-token of its app pattern. -/
def insertRuleTokens (m : RuleMap) (rule : Rule) : RuleMap :=
  if rule.enabled then (goSplitChar ',' rule.appName).foldl (insertToken rule) m else m

/-- First phase of buildRuleMap: for every enabled rule, split its app
pattern on commas, trim each token, and append the rule under every
non-empty token. -/
def buildRuleMapRaw (rules : List Rule) : RuleMap :=
  rules.foldl insertRuleTokens []

/-- buildRuleMap from the matcher service: group enabled rules by trimmed
comma-token of their app pattern, then sort every bucket with the exchange
sort above. -/
def buildRuleMap (rules : List Rule) : RuleMap :=
  (buildRuleMapRaw rules).map (fun kv => (kv.1, sortRulesByPriority kv.2))

/-- The loop `for _, rule := range rules { if windowNameMatches ... return &rule }`. -/
def firstWindowMatch (windowName : Str) : List Rule → Option Rule
  | [] => none
  | r :: rs =>
    if windowNameMatches windowName r.windowName then some r
    else firstWindowMatch windowName rs

/-- The fuzzy phase `for appName, rules := range ms.ruleMap`: Go map
iteration visits every key exactly once in an unspecified order, so the
order is the `keys` parameter (callers pass a permutation of the map's keys). -/
def fuzzyLoop (m : RuleMap) (w : WindowInfo) : List Str → Option Rule
  | [] => none
  | k :: ks =>
    if appNameMatches w.appName k then
      match firstWindowMatch w.windowName ((mapLookup m k).getD []) with
      | some r => some r
      | none => fuzzyLoop m w ks
    else fuzzyLoop m w ks

/-- MatchWindow from the matcher service: nil guard, exact lookup of the
observation's app name, then the fuzzy phase over the map keys in iteration
order `keyOrder`. -/
def MatchWindow (keyOrder : List Str) (m : RuleMap) (w : Option WindowInfo) : Option Rule :=
  match w with
  | none => none
  | some w =>
    match mapLookup m w.appName with
    | some rules =>
      match firstWindowMatch w.windowName rules with
      | some r => some r
      | none => fuzzyLoop m w keyOrder
    | none => fuzzyLoop m w keyOrder

/-- The key set of the rule index, for stating which iteration orders a Go
map range can produce. -/
def ruleMapKeys (m : RuleMap) : List Str :=
  m.map Prod.fst

/-! Lemmas about the exchange sort inside buildRuleMap. -/

lemma getD_eq_getElem (rs : List Rule) (k : Nat) (h : k < rs.length) (d : Rule) :
    rs.getD k d = rs[k] := by
  simp [List.getD_eq_getElem?_getD, List.getElem?_eq_getElem h]

lemma listSwap_length (rs : List Rule) (i j : Nat) : (listSwap rs i j).length = rs.length := by
  simp [listSwap]

lemma listSwap_getD_fst (rs : List Rule) (i j : Nat) (hi : i < rs.length) (hj : j < rs.length)
    (hij : i ≠ j) (d : Rule) :
    (listSwap rs i j).getD i d = rs.getD j d := by
  simp [listSwap, List.getElem?_set, List.length_set, hi, hj, hij, Ne.symm hij,
    List.getElem?_eq_getElem hi, List.getElem?_eq_getElem hj]

lemma listSwap_getD_snd (rs : List Rule) (i j : Nat) (hi : i < rs.length) (hj : j < rs.length)
    (d : Rule) :
    (listSwap rs i j).getD j d = rs.getD i d := by
  simp [listSwap, List.getElem?_set, List.length_set, hi, hj,
    List.getElem?_eq_getElem hi, List.getElem?_eq_getElem hj]

lemma listSwap_getD_other (rs : List Rule) (i j k : Nat) (hki : k ≠ i) (hkj : k ≠ j) (d : Rule) :
    (listSwap rs i j).getD k d = rs.getD k d := by
  simp [listSwap, List.getD_eq_getElem?_getD, List.getElem?_set_ne hki.symm,
    List.getElem?_set_ne hkj.symm]

lemma cons_getElem_set_perm (t : List Rule) (m : Nat) (hm : m < t.length) (a : Rule) :
    (t[m] :: t.set m a).Perm (a :: t) := by
  induction t generalizing m with
  | nil => simp at hm
  | cons b t ih =>
    cases m with
    | zero => simpa using List.Perm.swap a b t
    | succ k =>
      have hk : k < t.length := by simpa using hm
      have h1 : ((b :: t)[k + 1] :: (b :: t).set (k + 1) a) = t[k] :: b :: t.set k a := by simp
      rw [h1]
      have h2 : (t[k] :: b :: t.set k a).Perm (b :: t[k] :: t.set k a) :=
        List.Perm.swap b (t[k]) (t.set k a)
      have h3 : (b :: t[k] :: t.set k a).Perm (b :: a :: t) := (ih k hk).cons b
      have h4 : (b :: a :: t).Perm (a :: b :: t) := List.Perm.swap a b t
      exact (h2.trans h3).trans h4

lemma listSwap_perm (rs : List Rule) (i j : Nat) (hij : i < j) (hj : j < rs.length) :
    (listSwap rs i j).Perm rs := by
  induction rs generalizing i j with
  | nil => simp at hj
  | cons a t ih =>
    cases i with
    | zero =>
      cases j with
      | zero => omega
      | succ m =>
        have hm : m < t.length := by simpa using hj
        have heq : listSwap (a :: t) 0 (m + 1) = t[m] :: t.set m a := by
          simp [listSwap, List.getElem?_eq_getElem hm]
        rw [heq]
        exact cons_getElem_set_perm t m hm a
    | succ i' =>
      cases j with
      | zero => omega
      | succ m =>
        have heq : listSwap (a :: t) (i' + 1) (m + 1) = a :: listSwap t i' m := by
          simp [listSwap]
        rw [heq]
        exact (ih i' m (by omega) (by simpa using hj)).cons a

/-- Bucket ordering checked by the exchange sort. -/
def prioLe (a b : Rule) : Prop := a.priority ≤ b.priority

lemma prioAt_listSwap_fst (rs : List Rule) (i j : Nat) (hi : i < rs.length) (hj : j < rs.length)
    (hij : i ≠ j) : prioAt (listSwap rs i j) i = prioAt rs j := by
  unfold prioAt
  rw [listSwap_getD_fst rs i j hi hj hij]

lemma prioAt_listSwap_snd (rs : List Rule) (i j : Nat) (hi : i < rs.length) (hj : j < rs.length) :
    prioAt (listSwap rs i j) j = prioAt rs i := by
  unfold prioAt
  rw [listSwap_getD_snd rs i j hi hj]

lemma prioAt_listSwap_other (rs : List Rule) (i j k : Nat) (hki : k ≠ i) (hkj : k ≠ j) :
    prioAt (listSwap rs i j) k = prioAt rs k := by
  unfold prioAt
  rw [listSwap_getD_other rs i j k hki hkj]

lemma innerLoop_length : ∀ (fuel : Nat) (rs : List Rule) (i j : Nat),
    (innerLoop rs i j fuel).length = rs.length
  | 0, _, _, _ => rfl
  | fuel + 1, rs, i, j => by
    simp only [innerLoop]
    split
    · rw [innerLoop_length fuel]
      split
      · exact listSwap_length rs i j
      · rfl
    · rfl

lemma innerLoop_perm : ∀ (fuel : Nat) (rs : List Rule) (i j : Nat), i < j →
    (innerLoop rs i j fuel).Perm rs
  | 0, rs, _, _, _ => List.Perm.refl rs
  | fuel + 1, rs, i, j, hij => by
    simp only [innerLoop]
    split
    · rename_i hlt
      have hstep : (if prioAt rs i > prioAt rs j then listSwap rs i j else rs).Perm rs := by
        split
        · exact listSwap_perm rs i j hij hlt
        · exact List.Perm.refl rs
      exact (innerLoop_perm fuel _ i (j + 1) (by omega)).trans hstep
    · exact List.Perm.refl rs

lemma innerLoop_getD_frozen : ∀ (fuel : Nat) (rs : List Rule) (i j k : Nat) (d : Rule),
    k < j → k ≠ i → (innerLoop rs i j fuel).getD k d = rs.getD k d
  | 0, _, _, _, _, _, _, _ => rfl
  | fuel + 1, rs, i, j, k, d, hkj, hki => by
    simp only [innerLoop]
    split
    · rw [innerLoop_getD_frozen fuel _ i (j + 1) k d (by omega) hki]
      split
      · exact listSwap_getD_other rs i j k hki (by omega) d
      · rfl
    · rfl

lemma innerLoop_min : ∀ (fuel : Nat) (rs : List Rule) (i j : Nat), i < j →
    rs.length ≤ j + fuel →
    (∀ k, i < k → k < j → prioAt rs i ≤ prioAt rs k) →
    ∀ k, i < k → k < rs.length →
      prioAt (innerLoop rs i j fuel) i ≤ prioAt (innerLoop rs i j fuel) k
  | 0, rs, i, j, _, hfuel, hpre, k, hik, hk => by
    simp only [innerLoop]
    exact hpre k hik (by omega)
  | fuel + 1, rs, i, j, hij, hfuel, hpre, k, hik, hk => by
    by_cases hlt : j < rs.length
    · have hstep : innerLoop rs i j (fuel + 1)
          = innerLoop (if prioAt rs i > prioAt rs j then listSwap rs i j else rs) i (j + 1) fuel := by
        simp only [innerLoop, if_pos hlt]
      rw [hstep]
      by_cases hsw : prioAt rs i > prioAt rs j
      · rw [if_pos hsw]
        have hi : i < rs.length := by omega
        have hne : i ≠ j := by omega
        refine innerLoop_min fuel (listSwap rs i j) i (j + 1) (by omega)
          (by rw [listSwap_length]; omega) ?_ k hik (by rw [listSwap_length]; omega)
        intro k' hik' hk'
        rw [prioAt_listSwap_fst rs i j hi hlt hne]
        rcases Nat.lt_or_ge k' j with hk'j | hk'j
        · rw [prioAt_listSwap_other rs i j k' (by omega) (by omega)]
          exact (le_of_lt hsw).trans (hpre k' hik' hk'j)
        · have hk'eq : k' = j := by omega
          subst hk'eq
          rw [prioAt_listSwap_snd rs i k' hi hlt]
          exact le_of_lt hsw
      · rw [if_neg hsw]
        refine innerLoop_min fuel rs i (j + 1) (by omega) (by omega) ?_ k hik hk
        intro k' hik' hk'
        rcases Nat.lt_or_ge k' j with hk'j | hk'j
        · exact hpre k' hik' hk'j
        · have hk'eq : k' = j := by omega
          subst hk'eq
          omega
    · have hstep : innerLoop rs i j (fuel + 1) = rs := by
        simp only [innerLoop, if_neg hlt]
      rw [hstep]
      exact hpre k hik (by omega)

lemma take_eq_of_getD (l₁ l₂ : List Rule) (i : Nat) (hlen : l₁.length = l₂.length)
    (h : ∀ k, k < i → l₁.getD k default = l₂.getD k default) :
    l₁.take i = l₂.take i := by
  apply List.ext_getElem?
  intro n
  by_cases hn : n < i
  · rw [List.getElem?_take_of_lt hn, List.getElem?_take_of_lt hn]
    by_cases hl : n < l₁.length
    · have hgd := h n hn
      rw [getD_eq_getElem _ _ hl, getD_eq_getElem _ _ (hlen ▸ hl)] at hgd
      rw [List.getElem?_eq_getElem hl, List.getElem?_eq_getElem (hlen ▸ hl), hgd]
    · rw [List.getElem?_eq_none (by omega), List.getElem?_eq_none (by omega)]
  · rw [List.getElem?_eq_none (by simp [List.length_take]; omega),
      List.getElem?_eq_none (by simp [List.length_take]; omega)]

lemma drop_perm_of_perm_take_eq (l₁ l₂ : List Rule) (i : Nat) (hp : l₁.Perm l₂)
    (ht : l₁.take i = l₂.take i) : (l₁.drop i).Perm (l₂.drop i) := by
  have h1 : (l₁.take i ++ l₁.drop i).Perm (l₂.take i ++ l₂.drop i) := by
    simpa [List.take_append_drop] using hp
  rw [ht] at h1
  exact (List.perm_append_left_iff _).mp h1

lemma mem_drop_index (l : List Rule) (m : Nat) (y : Rule) (hy : y ∈ l.drop m) :
    ∃ k, m ≤ k ∧ k < l.length ∧ l.getD k default = y := by
  obtain ⟨t, ht, hval⟩ := List.mem_iff_getElem.mp hy
  have hlen : t < l.length - m := by simpa [List.length_drop] using ht
  refine ⟨m + t, by omega, by omega, ?_⟩
  rw [getD_eq_getElem _ _ (by omega)]
  rw [← hval, List.getElem_drop]

lemma pairwise_of_short (l : List Rule) (h : l.length ≤ 1) : l.Pairwise prioLe := by
  match l with
  | [] => exact List.Pairwise.nil
  | [x] => simp
  | x :: y :: t => simp at h

/-- Loop invariant of the outer sort loop at index `i`: the prefix before `i`
is sorted and dominates the rest of the list. -/
def sortInv (rs : List Rule) (i : Nat) : Prop :=
  (rs.take i).Pairwise prioLe ∧ ∀ x ∈ rs.take i, ∀ y ∈ rs.drop i, prioLe x y

lemma pairwise_of_sortInv (rs : List Rule) (i : Nat) (hinv : sortInv rs i)
    (hi : rs.length - 1 ≤ i) : rs.Pairwise prioLe := by
  have h2 : (rs.take i ++ rs.drop i).Pairwise prioLe :=
    List.pairwise_append.mpr
      ⟨hinv.1, pairwise_of_short _ (by simp [List.length_drop]; omega), hinv.2⟩
  simpa [List.take_append_drop] using h2

lemma sortInv_innerStep (rs : List Rule) (i : Nat) (hinv : sortInv rs i)
    (hi : i < rs.length - 1) :
    sortInv (innerLoop rs i (i + 1) (rs.length - (i + 1))) (i + 1) := by
  set rs' := innerLoop rs i (i + 1) (rs.length - (i + 1)) with hrs'
  have hlen : rs'.length = rs.length := innerLoop_length _ rs i (i + 1)
  have hperm : rs'.Perm rs := innerLoop_perm _ rs i (i + 1) (by omega)
  have htake : rs'.take i = rs.take i := by
    apply take_eq_of_getD _ _ _ hlen
    intro k hk
    exact innerLoop_getD_frozen _ rs i (i + 1) k default (by omega) (by omega)
  have hdropperm : (rs'.drop i).Perm (rs.drop i) := drop_perm_of_perm_take_eq _ _ _ hperm htake
  have hmin : ∀ k, i < k → k < rs.length → prioAt rs' i ≤ prioAt rs' k := by
    intro k hik hk
    exact innerLoop_min _ rs i (i + 1) (by omega) (by omega) (by omega) k hik hk
  have hii : i < rs'.length := by omega
  have he_elem : rs'.drop i = rs'[i] :: rs'.drop (i + 1) := List.drop_eq_getElem_cons hii
  have he_mem : rs'[i] ∈ rs.drop i := by
    refine hdropperm.subset ?_
    rw [he_elem]
    exact List.mem_cons_self _ _
  have he_ge : ∀ x ∈ rs.take i, prioLe x rs'[i] := fun x hx => hinv.2 x hx rs'[i] he_mem
  have htakesucc : rs'.take (i + 1) = rs.take i ++ [rs'[i]] := by
    rw [List.take_succ, List.getElem?_eq_getElem hii, htake]
    rfl
  constructor
  · rw [htakesucc]
    refine List.pairwise_append.mpr ⟨hinv.1, by simp, ?_⟩
    intro x hx b hb
    rw [List.mem_singleton] at hb
    subst hb
    exact he_ge x hx
  · intro x hx y hy
    have hysub : y ∈ rs'.drop i := by
      have : rs'.drop (i + 1) = (rs'.drop i).drop 1 := by
        rw [List.drop_drop]
      rw [this] at hy
      exact List.drop_subset _ _ hy
    rw [htakesucc] at hx
    rcases List.mem_append.mp hx with hx' | hx'
    · exact hinv.2 x hx' y (hdropperm.subset hysub)
    · rw [List.mem_singleton] at hx'
      subst hx'
      obtain ⟨k, hk1, hk2, hk3⟩ := mem_drop_index rs' (i + 1) y hy
      have := hmin k (by omega) (by omega)
      unfold prioAt at this
      rw [hk3] at this
      unfold prioLe
      rwa [getD_eq_getElem _ _ hii] at this

lemma outerLoop_sorted : ∀ (fuel : Nat) (rs : List Rule) (i : Nat), sortInv rs i →
    rs.length - 1 ≤ i + fuel →
    (outerLoop rs i fuel).Pairwise prioLe ∧ (outerLoop rs i fuel).Perm rs
  | 0, rs, i, hinv, hfuel =>
    ⟨pairwise_of_sortInv rs i hinv (by omega), List.Perm.refl rs⟩
  | fuel + 1, rs, i, hinv, hfuel => by
    by_cases hi : i < rs.length - 1
    · have hstep : outerLoop rs i (fuel + 1)
          = outerLoop (innerLoop rs i (i + 1) (rs.length - (i + 1))) (i + 1) fuel := by
        simp only [outerLoop, if_pos hi]
      rw [hstep]
      have hinv' := sortInv_innerStep rs i hinv hi
      have hlen' : (innerLoop rs i (i + 1) (rs.length - (i + 1))).length = rs.length :=
        innerLoop_length _ rs i (i + 1)
      obtain ⟨hp, hperm⟩ := outerLoop_sorted fuel _ (i + 1) hinv' (by rw [hlen']; omega)
      exact ⟨hp, hperm.trans (innerLoop_perm _ rs i (i + 1) (by omega))⟩
    · have hstep : outerLoop rs i (fuel + 1) = rs := by
        simp only [outerLoop, if_neg hi]
      rw [hstep]
      exact ⟨pairwise_of_sortInv rs i hinv (by omega), List.Perm.refl rs⟩

lemma sortRules_pairwise (rs : List Rule) : (sortRulesByPriority rs).Pairwise prioLe := by
  refine (outerLoop_sorted rs.length rs 0 ⟨by simp, by simp⟩ (by omega)).1

lemma sortRules_perm (rs : List Rule) : (sortRulesByPriority rs).Perm rs := by
  refine (outerLoop_sorted rs.length rs 0 ⟨by simp, by simp⟩ (by omega)).2

/-! Lemmas about the exact phase of MatchWindow. -/

lemma firstWindowMatch_spec (windowName : Str) :
    ∀ rs : List Rule, (∃ r ∈ rs, windowNameMatches windowName r.windowName = true) →
    ∃ r, firstWindowMatch windowName rs = some r ∧ r ∈ rs ∧
      windowNameMatches windowName r.windowName = true
  | [], h => by simp at h
  | r :: rs, h => by
    by_cases hr : windowNameMatches windowName r.windowName = true
    · exact ⟨r, by simp [firstWindowMatch, hr], List.mem_cons_self r rs, hr⟩
    · have h' : ∃ x ∈ rs, windowNameMatches windowName x.windowName = true := by
        rcases h with ⟨x, hx, hxm⟩
        rcases List.mem_cons.mp hx with rfl | hx'
        · exact absurd hxm hr
        · exact ⟨x, hx', hxm⟩
      obtain ⟨x, hfind, hmem, hxm⟩ := firstWindowMatch_spec windowName rs h'
      refine ⟨x, ?_, List.mem_cons_of_mem r hmem, hxm⟩
      simpa [firstWindowMatch, hr] using hfind

lemma firstWindowMatch_min (windowName : Str) :
    ∀ rs : List Rule, rs.Pairwise prioLe →
    ∀ r, firstWindowMatch windowName rs = some r →
    ∀ x ∈ rs, windowNameMatches windowName x.windowName = true → r.priority ≤ x.priority
  | [], _, r, hr => by simp [firstWindowMatch] at hr
  | y :: rs, hpw, r, hr => by
    intro x hx hxm
    by_cases hy : windowNameMatches windowName y.windowName = true
    · have hry : r = y := by
        have h0 := hr
        simp [firstWindowMatch, hy] at h0
        exact h0.symm
      subst hry
      rcases List.mem_cons.mp hx with rfl | hx'
      · exact le_refl _
      · exact (List.pairwise_cons.mp hpw).1 x hx'
    · have hr' : firstWindowMatch windowName rs = some r := by
        simpa [firstWindowMatch, hy] using hr
      rcases List.mem_cons.mp hx with rfl | hx'
      · exact absurd hxm hy
      · exact firstWindowMatch_min windowName rs (List.pairwise_cons.mp hpw).2 r hr' x hx' hxm

lemma mapLookup_map_sort (m : RuleMap) (k : Str) :
    mapLookup (m.map fun kv => (kv.1, sortRulesByPriority kv.2)) k
      = (mapLookup m k).map sortRulesByPriority := by
  induction m with
  | nil => simp [mapLookup]
  | cons kv m ih =>
    obtain ⟨k', rs⟩ := kv
    by_cases hk : k' = k
    · simp [mapLookup, hk]
    · simp [mapLookup, hk, ih]

lemma mapLookup_buildRuleMap (rules : List Rule) (k : Str) :
    mapLookup (buildRuleMap rules) k = (mapLookup (buildRuleMapRaw rules) k).map sortRulesByPriority :=
  mapLookup_map_sort (buildRuleMapRaw rules) k

lemma mapLookup_mapAppend_self (m : RuleMap) (k : Str) (r : Rule) :
    (mapLookup (mapAppend m k r) k).isSome := by
  induction m with
  | nil => simp [mapAppend, mapLookup]
  | cons kv m ih =>
    obtain ⟨k', rs⟩ := kv
    by_cases hk : k' = k
    · simp [mapAppend, mapLookup, hk]
    · simp [mapAppend, mapLookup, hk, ih]

lemma mapLookup_mapAppend_pres (m : RuleMap) (k k' : Str) (r : Rule)
    (h : (mapLookup m k).isSome) : (mapLookup (mapAppend m k' r) k).isSome := by
  induction m with
  | nil => simp [mapLookup] at h
  | cons kv m ih =>
    obtain ⟨k₀, rs⟩ := kv
    by_cases hk0 : k₀ = k'
    · by_cases hk : k₀ = k <;> simp_all [mapAppend, mapLookup]
    · by_cases hk : k₀ = k <;> simp_all [mapAppend, mapLookup]

lemma insertToken_pres (rule : Rule) (m : RuleMap) (t k : Str)
    (h : (mapLookup m k).isSome) : (mapLookup (insertToken rule m t) k).isSome := by
  simp only [insertToken]
  split
  · exact mapLookup_mapAppend_pres m k _ rule h
  · exact h

lemma foldl_insertToken_pres (rule : Rule) (ts : List Str) : ∀ (m : RuleMap) (k : Str),
    (mapLookup m k).isSome → (mapLookup (ts.foldl (insertToken rule) m) k).isSome := by
  induction ts with
  | nil => exact fun m k h => h
  | cons t ts ih =>
    intro m k h
    simp only [List.foldl_cons]
    exact ih _ k (insertToken_pres rule m t k h)

lemma insertRuleTokens_pres (m : RuleMap) (rule : Rule) (k : Str)
    (h : (mapLookup m k).isSome) : (mapLookup (insertRuleTokens m rule) k).isSome := by
  unfold insertRuleTokens
  split
  · exact foldl_insertToken_pres rule _ m k h
  · exact h

lemma foldl_insertRuleTokens_pres (rules : List Rule) : ∀ (m : RuleMap) (k : Str),
    (mapLookup m k).isSome → (mapLookup (rules.foldl insertRuleTokens m) k).isSome := by
  induction rules with
  | nil => exact fun m k h => h
  | cons r rest ih =>
    intro m k h
    simp only [List.foldl_cons]
    exact ih _ k (insertRuleTokens_pres m r k h)

lemma goSplitChar_not_mem (c : Char) (s : Str) (h : c ∉ s) : goSplitChar c s = [s] := by
  induction s with
  | nil => rfl
  | cons x xs ih =>
    have hx : ¬ x = c := fun he => h (he ▸ List.mem_cons_self x xs)
    have hxs : c ∉ xs := fun hc => h (List.mem_cons_of_mem x hc)
    simp [goSplitChar, ih hxs, hx]

lemma insertRuleTokens_self (m : RuleMap) (rule : Rule) (key : Str)
    (hen : rule.enabled = true) (happ : rule.appName = key)
    (htrim : goTrimSpace key = key) (hne : key ≠ []) (hcomma : ',' ∉ key) :
    (mapLookup (insertRuleTokens m rule) key).isSome := by
  unfold insertRuleTokens
  rw [hen, if_pos rfl, happ, goSplitChar_not_mem ',' key hcomma]
  show (mapLookup (insertToken rule m key) key).isSome
  simp only [insertToken]
  rw [htrim, if_pos hne]
  exact mapLookup_mapAppend_self m key rule

lemma buildRuleMapRaw_isSome (rules : List Rule) (key : Str)
    (htrim : goTrimSpace key = key) (hne : key ≠ []) (hcomma : ',' ∉ key) :
    ∀ m : RuleMap, (∃ r ∈ rules, r.enabled = true ∧ r.appName = key) →
    (mapLookup (rules.foldl insertRuleTokens m) key).isSome := by
  induction rules with
  | nil => intro m h; simp at h
  | cons r rest ih =>
    intro m h
    simp only [List.foldl_cons]
    rcases h with ⟨x, hx, hxe, hxa⟩
    rcases List.mem_cons.mp hx with rfl | hx'
    · exact foldl_insertRuleTokens_pres rest _ key
        (insertRuleTokens_self m x key hxe hxa htrim hne hcomma)
    · exact ih (insertRuleTokens m r) ⟨x, hx', hxe, hxa⟩

lemma matchWindow_exact (ko : List Str) (m : RuleMap) (w : WindowInfo) (rs : List Rule) (r : Rule)
    (hlk : mapLookup m w.appName = some rs) (hfwm : firstWindowMatch w.windowName rs = some r) :
    MatchWindow ko m (some w) = some r := by
  simp only [MatchWindow, hlk, hfwm]

/-- C1 (amended): for every rule set containing an enabled rule whose whole
app pattern is exactly the observation's app name (a non-empty, trimmed,
comma-free token), and whose index bucket for that name contains a
window-matching candidate, MatchWindow returns an exact-phase candidate of
lowest priority among the bucket's window-matching candidates.  The
original claim's tie-break (first in the original rule list among equal
priorities) does not hold: the per-key sort is an unstable exchange sort
(see the counterexample). -/
theorem matchWindow_exact_lowest_priority (rules : List Rule) (w : WindowInfo) (ko : List Str)
    (hex : ∃ r ∈ rules, r.enabled = true ∧ r.appName = w.appName)
    (htrim : goTrimSpace w.appName = w.appName) (hne : w.appName ≠ [])
    (hcomma : ',' ∉ w.appName)
    (hwm : ∀ rs, mapLookup (buildRuleMap rules) w.appName = some rs →
      ∃ r ∈ rs, windowNameMatches w.windowName r.windowName = true) :
    ∃ rs r, mapLookup (buildRuleMap rules) w.appName = some rs ∧
      MatchWindow ko (buildRuleMap rules) (some w) = some r ∧
      r ∈ rs ∧ windowNameMatches w.windowName r.windowName = true ∧
      ∀ x ∈ rs, windowNameMatches w.windowName x.windowName = true → r.priority ≤ x.priority := by
  have hsome : (mapLookup (buildRuleMapRaw rules) w.appName).isSome := by
    unfold buildRuleMapRaw
    exact buildRuleMapRaw_isSome rules w.appName htrim hne hcomma [] hex
  obtain ⟨raw, hraw⟩ := Option.isSome_iff_exists.mp hsome
  have hlk : mapLookup (buildRuleMap rules) w.appName = some (sortRulesByPriority raw) := by
    rw [mapLookup_buildRuleMap, hraw]
    rfl
  obtain ⟨r, hfwm, hmem, hrm⟩ := firstWindowMatch_spec w.windowName _ (hwm _ hlk)
  refine ⟨sortRulesByPriority raw, r, hlk, matchWindow_exact ko _ w _ r hlk hfwm, hmem, hrm, ?_⟩
  exact firstWindowMatch_min w.windowName _ (sortRules_pairwise raw) r hfwm

def c1wRule : Rule :=
  { appName := "app".toList, windowName := [], input := "x".toList,
    enabled := true, priority := 1 }

def c1wObs : WindowInfo :=
  { appName := "app".toList, appPath := [], windowName := [], pid := 0 }

/-- Witness for the C1 theorem at a one-rule configuration. -/
theorem matchWindow_exact_lowest_priority_witness :
    ∃ rs r, mapLookup (buildRuleMap [c1wRule]) c1wObs.appName = some rs ∧
      MatchWindow [] (buildRuleMap [c1wRule]) (some c1wObs) = some r ∧
      r ∈ rs ∧ windowNameMatches c1wObs.windowName r.windowName = true ∧
      ∀ x ∈ rs, windowNameMatches c1wObs.windowName x.windowName = true →
        r.priority ≤ x.priority := by
  refine matchWindow_exact_lowest_priority [c1wRule] c1wObs []
    (by decide) (by decide) (by decide) (by decide) ?_
  intro rs h
  have hrs : rs = [c1wRule] := by
    have he : mapLookup (buildRuleMap [c1wRule]) c1wObs.appName = some [c1wRule] := by decide
    rw [he] at h
    exact (Option.some_inj.mp h).symm
  subst hrs
  exact ⟨c1wRule, by decide⟩

def c1R1 : Rule :=
  { appName := "foo".toList, windowName := [], input := "a".toList,
    enabled := true, priority := 2 }

def c1R2 : Rule :=
  { appName := "foo".toList, windowName := [], input := "b".toList,
    enabled := true, priority := 2 }

def c1R3 : Rule :=
  { appName := "foo".toList, windowName := "zzz".toList, input := "c".toList,
    enabled := true, priority := 1 }

def c1Rules : List Rule := [c1R1, c1R2, c1R3]

def c1Obs : WindowInfo :=
  { appName := "foo".toList, appPath := [], windowName := [], pid := 0 }

/-- C1 counterexample to the stability clause: rules r1 and r2 share app
pattern "foo" and priority 2, r1 comes first in the original list and its
window pattern matches, yet MatchWindow returns r2 — the exchange sort in
buildRuleMap moved the later rule in front while bubbling the priority-1
rule (whose window pattern does not match) to the head of the bucket. -/
theorem matchWindow_stability_counterexample :
    c1R1 ∈ c1Rules ∧ c1R1.enabled = true ∧ c1R1.appName = c1Obs.appName ∧
    windowNameMatches c1Obs.windowName c1R1.windowName = true ∧
    c1R2 ∈ c1Rules ∧ c1R2.priority = c1R1.priority ∧
    c1Rules.indexOf c1R1 < c1Rules.indexOf c1R2 ∧
    MatchWindow (ruleMapKeys (buildRuleMap c1Rules)) (buildRuleMap c1Rules) (some c1Obs)
      = some c1R2 ∧
    c1R2 ≠ c1R1 := by
  decide

/-- C8 (amended): MatchWindow is deterministic whenever the exact phase
resolves the observation — the result is then independent of the map
iteration order.  The original claim's extension to fuzzy-phase
resolutions fails: the fuzzy result depends on the iteration order of the
Go map, which is not fixed between calls (see the counterexample). -/
theorem matchWindow_exact_phase_deterministic (m : RuleMap) (w : WindowInfo)
    (ko₁ ko₂ : List Str) (rs : List Rule) (r : Rule)
    (hlk : mapLookup m w.appName = some rs)
    (hfwm : firstWindowMatch w.windowName rs = some r) :
    MatchWindow ko₁ m (some w) = MatchWindow ko₂ m (some w) := by
  rw [matchWindow_exact ko₁ m w rs r hlk hfwm, matchWindow_exact ko₂ m w rs r hlk hfwm]

/-- Witness for the C8 theorem: two different iteration orders over the
index of the one-rule configuration give the same exact-phase answer. -/
theorem matchWindow_exact_phase_deterministic_witness :
    MatchWindow ["zzz".toList] (buildRuleMap [c1wRule]) (some c1wObs)
      = MatchWindow [] (buildRuleMap [c1wRule]) (some c1wObs) := by
  exact matchWindow_exact_phase_deterministic (buildRuleMap [c1wRule]) c1wObs _ _
    [c1wRule] c1wRule (by decide) (by decide)

def c8RA : Rule :=
  { appName := "chrome".toList, windowName := [], input := "im1".toList,
    enabled := true, priority := 1 }

def c8RB : Rule :=
  { appName := "google".toList, windowName := [], input := "im2".toList,
    enabled := true, priority := 1 }

def c8M : RuleMap := buildRuleMap [c8RA, c8RB]

def c8Obs : WindowInfo :=
  { appName := "google chrome".toList, appPath := [], windowName := [], pid := 0 }

/-- C8 counterexample: the observation "google chrome" has no exact index
key, and both fuzzy keys "chrome" and "google" match it; the two possible
Go map iteration orders return different rules, so MatchWindow is not a
function of the observation and index alone. -/
theorem matchWindow_fuzzy_order_counterexample :
    ("chrome".toList :: ["google".toList]).Perm (ruleMapKeys c8M) ∧
    ("google".toList :: ["chrome".toList]).Perm (ruleMapKeys c8M) ∧
    MatchWindow ["chrome".toList, "google".toList] c8M (some c8Obs) = some c8RA ∧
    MatchWindow ["google".toList, "chrome".toList] c8M (some c8Obs) = some c8RB ∧
    c8RA ≠ c8RB := by
  decide

/-! Model of the MatcherService state: config store, slice heap, lock. -/

/-- A Go slice header: backing-array id and length (every slice in this
program starts at offset 0). -/
structure Slice where
  id : Nat
  len : Nat
deriving DecidableEq, Inhabited

/-- The in-memory Config (`ms.config`): the rules field is a slice header
into the heap of backing arrays; general and lastModified are value fields. -/
structure ConfigV where
  rules : Slice
  general : GeneralConfig
  lastModified : Str
deriving DecidableEq, Inhabited

/-- The persisted config file: absent, unparseable JSON, or a parsed value. -/
inductive DiskState where
  | absent
  | malformed
  | valid (rules : List Rule) (general : GeneralConfig) (lastModified : Str)
deriving DecidableEq, Inhabited

/-- Errors returned by the matcher service (Go wraps them in fmt.Errorf
strings; only their identity matters here). -/
inductive GoErr where
  | parseErr
  | writeErr
  | readErr
  | indexErr
  | notLoaded
  | createDefaultErr
deriving DecidableEq

/-- State of the MatcherService plus the parts of the world it touches: the
heap of slice backing arrays, the config file on disk, the derived rule
index, and whether ruleMutex is write-locked by the running goroutine. -/
structure MatcherState where
  heap : List (List Rule)
  config : Option ConfigV
  disk : DiskState
  ruleMap : RuleMap
  lockHeld : Bool
deriving DecidableEq, Inhabited

/-- Dereference a slice header against the heap. -/
def resolveRules (heap : List (List Rule)) (s : Slice) : List Rule :=
  (heap.getD s.id []).take s.len

/-- Go `fmt.Sprintf("%d", os.Getpid())`. -/
def pidStr (pid : Nat) : Str :=
  (toString pid).toList

/-- SaveConfig from the matcher service.  `writeOk` abstracts whether
ioutil.WriteFile succeeds (os.MkdirAll and json.MarshalIndent cannot fail
for this data); on failure the deferred unlock runs and nothing else
changed.  Taking ruleMutex.Lock while the caller already write-holds it
blocks forever (`none`): Go sync.RWMutex is not reentrant. -/
def SaveConfig (s : MatcherState) (pid : Nat) (writeOk : Bool) (cfg : ConfigV) :
    Option (MatcherState × Except GoErr Unit) :=
  if s.lockHeld then none
  else
    let cfg := { cfg with lastModified := pidStr pid }
    if writeOk then
      let rules := resolveRules s.heap cfg.rules
      some ({ s with config := some cfg,
                     disk := .valid rules cfg.general cfg.lastModified,
                     ruleMap := buildRuleMap rules }, .ok ())
    else
      some (s, .error .writeErr)

/-- The built-in rule set of createDefaultConfig. -/
def defaultConfigRules : List Rule :=
  [ { appName := "com.apple.Safari".toList, windowName := [],
      input := "com.tencent.inputmethod.wetype.pinyin".toList,
      enabled := true, priority := 1 },
    { appName := "com.google.Chrome".toList, windowName := [],
      input := "com.tencent.inputmethod.wetype.pinyin".toList,
      enabled := true, priority := 1 },
    { appName := "com.apple.Terminal".toList, windowName := [],
      input := "com.apple.keylayout.ABC".toList,
      enabled := true, priority := 1 },
    { appName := "com.microsoft.VSCode".toList, windowName := [],
      input := "com.apple.keylayout.ABC".toList,
      enabled := true, priority := 1 } ]

/-- The general settings of createDefaultConfig. -/
def defaultConfigGeneral : GeneralConfig :=
  { autoStart := false, checkInterval := 500, switchDelay := 100,
    enableLogging := true, logLevel := "info".toList, showNotifications := true }

/-- The default-filling block of LoadConfig (checkInterval 500, switchDelay
100, logLevel "info" when unset). -/
def applyDefaults (g : GeneralConfig) : GeneralConfig :=
  let g := if g.checkInterval = 0 then { g with checkInterval := 500 } else g
  let g := if g.switchDelay = 0 then { g with switchDelay := 100 } else g
  if g.logLevel = [] then { g with logLevel := "info".toList } else g

/-- The tail of LoadConfig after the existence check: read the file, parse
it (json.Unmarshal allocates a fresh backing array for the rules), fill
defaults, install the config and rebuild the rule index.  Parse failure
returns before `ms.config` or `ms.ruleMap` are assigned. -/
def loadBody (s : MatcherState) : MatcherState × Except GoErr Unit :=
  match s.disk with
  | .absent => (s, .error .readErr)
  | .malformed => (s, .error .parseErr)
  | .valid rules general lm =>
    let general := applyDefaults general
    let cfg : ConfigV := ⟨⟨s.heap.length, rules.length⟩, general, lm⟩
    ({ s with heap := s.heap ++ [rules],
              config := some cfg,
              ruleMap := buildRuleMap rules }, .ok ())

/-- LoadConfig from the matcher service.  It write-locks ruleMutex for its
whole body; when the config file does not exist it calls
createDefaultConfig, whose SaveConfig takes the same lock again — Go
sync.RWMutex is not reentrant, so that nested Lock blocks forever
(`none`). -/
def LoadConfig (s : MatcherState) (pid : Nat) (writeOk : Bool) :
    Option (MatcherState × Except GoErr Unit) :=
  if s.lockHeld then none
  else
    let locked := { s with lockHeld := true }
    match locked.disk with
    | .absent =>
      let arrId := locked.heap.length
      let s2 := { locked with heap := locked.heap ++ [defaultConfigRules] }
      match SaveConfig s2 pid writeOk
          ⟨⟨arrId, defaultConfigRules.length⟩, defaultConfigGeneral, []⟩ with
      | none => none
      | some (s3, .error _) => some ({ s3 with lockHeld := false }, .error .createDefaultErr)
      | some (s3, .ok _) =>
        let r := loadBody s3
        some ({ r.1 with lockHeld := false }, r.2)
    | _ =>
      let r := loadBody locked
      some ({ r.1 with lockHeld := false }, r.2)

/-- GetConfig from the matcher service: `configCopy := *ms.config` copies
the struct value — including the rules slice header, so the copy shares
its backing array with the live config (the source comment claims a deep
copy). -/
def GetConfig (s : MatcherState) : Option ConfigV :=
  s.config

/-- In-place write `config.Rules[index] = rule` through a slice header. -/
def heapWrite (heap : List (List Rule)) (sl : Slice) (idx : Nat) (r : Rule) :
    List (List Rule) :=
  heap.set sl.id ((heap.getD sl.id []).set idx r)

/-- UpdateRule from the matcher service.  The bounds check mirrors
`index < 0 || index >= len(config.Rules)`; the assignment writes through
the snapshot's slice header into the shared backing array before
SaveConfig runs. -/
def UpdateRule (s : MatcherState) (index : Int) (rule : Rule) (pid : Nat) (writeOk : Bool) :
    Option (MatcherState × Except GoErr Unit) :=
  if s.lockHeld then none
  else
    match GetConfig s with
    | none => some (s, .error .notLoaded)
    | some cfg =>
      if index < 0 ∨ (cfg.rules.len : Int) ≤ index then some (s, .error .indexErr)
      else
        SaveConfig { s with heap := heapWrite s.heap cfg.rules index.toNat rule } pid writeOk cfg

/-- AddRule from the matcher service.  A zero priority is replaced by
`len(config.Rules)+1` before the rule is appended and saved.  `append` is
modelled as allocating a fresh backing array; when the old array has spare
capacity Go may instead write in place, which changes aliasing but not
the appended snapshot that is saved. -/
def AddRule (s : MatcherState) (rule : Rule) (pid : Nat) (writeOk : Bool) :
    Option (MatcherState × Except GoErr Unit) :=
  if s.lockHeld then none
  else
    match GetConfig s with
    | none => some (s, .error .notLoaded)
    | some cfg =>
      let rule := if rule.priority = 0
        then { rule with priority := (cfg.rules.len : Int) + 1 } else rule
      let newArr := resolveRules s.heap cfg.rules ++ [rule]
      let cfg := { cfg with rules := ⟨s.heap.length, newArr.length⟩ }
      SaveConfig { s with heap := s.heap ++ [newArr] } pid writeOk cfg

/-- The rules visible through the live in-memory config. -/
def liveRules (s : MatcherState) : List Rule :=
  match s.config with
  | none => []
  | some cfg => resolveRules s.heap cfg.rules

/-- The live config's slice header addresses a real backing array of
exactly its length (true of every state the service itself constructs). -/
def sliceWF (heap : List (List Rule)) (sl : Slice) : Prop :=
  sl.id < heap.length ∧ (heap.getD sl.id []).length = sl.len

/-- lastModified of the persisted file, when one is persisted. -/
def diskLastModified : DiskState → Option Str
  | .valid _ _ lm => some lm
  | _ => none

/-- Rules of the persisted file, when one is persisted. -/
def diskRules : DiskState → Option (List Rule)
  | .valid rules _ _ => some rules
  | _ => none

/-- The rule AddRule actually stores after priority defaulting. -/
def storedRule (cfg : ConfigV) (rule : Rule) : Rule :=
  if rule.priority = 0 then { rule with priority := (cfg.rules.len : Int) + 1 } else rule

/-- C5 (code bug): when no persisted config file exists, LoadConfig never
returns at all — it holds ruleMutex and calls createDefaultConfig, whose
SaveConfig blocks forever trying to take the same non-reentrant lock — so
it cannot synthesize, persist and return the default rule set as the claim
states. -/
theorem loadConfig_missing_file_deadlocks (s : MatcherState) (pid : Nat) (writeOk : Bool)
    (hl : s.lockHeld = false) (hd : s.disk = .absent) :
    LoadConfig s pid writeOk = none := by
  simp [LoadConfig, hl, hd, SaveConfig]

def c5wState : MatcherState :=
  { heap := [], config := none, disk := .absent, ruleMap := [], lockHeld := false }

/-- Witness for the C5 theorem: first start with an empty config directory. -/
theorem loadConfig_missing_file_deadlocks_witness : LoadConfig c5wState 42 true = none :=
  loadConfig_missing_file_deadlocks c5wState 42 true rfl rfl

/-- C6: when the persisted file holds malformed JSON, LoadConfig fails with
the parse error and returns the state completely unchanged — the
previously loaded in-memory config and the rule index derived from it stay
exactly as they were. -/
theorem loadConfig_malformed_preserves_state (s : MatcherState) (pid : Nat) (writeOk : Bool)
    (c : ConfigV) (hl : s.lockHeld = false) (hd : s.disk = .malformed)
    (hc : s.config = some c) :
    ∃ s', LoadConfig s pid writeOk = some (s', .error .parseErr) ∧
      s'.config = some c ∧ s'.ruleMap = s.ruleMap ∧ s' = s := by
  refine ⟨s, ?_, hc, rfl, rfl⟩
  cases s with
  | mk heap config disk ruleMap lockHeld =>
    simp only at hl hd
    subst hl hd
    simp [LoadConfig, loadBody]

def c6wRule : Rule :=
  { appName := "app".toList, windowName := [], input := "x".toList,
    enabled := true, priority := 1 }

def c6wState : MatcherState :=
  { heap := [[c6wRule]],
    config := some ⟨⟨0, 1⟩, defaultConfigGeneral, pidStr 42⟩,
    disk := .malformed,
    ruleMap := buildRuleMap [c6wRule],
    lockHeld := false }

/-- Witness for the C6 theorem: a loaded service whose config file was then
corrupted. -/
theorem loadConfig_malformed_preserves_state_witness :
    ∃ s', LoadConfig c6wState 42 true = some (s', .error .parseErr) ∧
      s'.config = some ⟨⟨0, 1⟩, defaultConfigGeneral, pidStr 42⟩ ∧
      s'.ruleMap = c6wState.ruleMap ∧ s' = c6wState :=
  loadConfig_malformed_preserves_state c6wState 42 true _ rfl rfl rfl

/-- C9: every successful SaveConfig stamps lastModified — in the installed
in-memory config and in the persisted file — with the decimal string of
the process id, not a timestamp; the stamp depends only on the pid, so it
is identical across all saves within one process run. -/
theorem saveConfig_lastModified_is_pid (s : MatcherState) (cfg : ConfigV) (pid : Nat)
    (hl : s.lockHeld = false) :
    SaveConfig s pid true cfg
      = some ({ s with
                  config := some { cfg with lastModified := pidStr pid },
                  disk := .valid (resolveRules s.heap cfg.rules) cfg.general (pidStr pid),
                  ruleMap := buildRuleMap (resolveRules s.heap cfg.rules) }, .ok ()) := by
  simp [SaveConfig, hl]

/-- Witness for the C9 theorem. -/
theorem saveConfig_lastModified_is_pid_witness :
    SaveConfig c5wState 42 true ⟨⟨0, 0⟩, defaultConfigGeneral, []⟩
      = some ({ c5wState with
                  config := some { (⟨⟨0, 0⟩, defaultConfigGeneral, []⟩ : ConfigV) with
                                     lastModified := pidStr 42 },
                  disk := .valid (resolveRules c5wState.heap ⟨0, 0⟩)
                           defaultConfigGeneral (pidStr 42),
                  ruleMap := buildRuleMap (resolveRules c5wState.heap ⟨0, 0⟩) }, .ok ()) :=
  saveConfig_lastModified_is_pid c5wState ⟨⟨0, 0⟩, defaultConfigGeneral, []⟩ 42 rfl

lemma getD_append_length {α : Type} (l : List α) (x : α) (d : α) :
    (l ++ [x]).getD l.length d = x := by
  induction l with
  | nil => rfl
  | cons a l ih => simpa using ih

/-- C10: AddRule silently replaces a zero priority with len(existing
rules)+1 before storing and persisting the rule, so no explicit priority 0
can reach the config through AddRule; any non-zero priority is stored
unchanged. -/
theorem addRule_priority_zero_defaulting (s : MatcherState) (cfg : ConfigV) (rule : Rule)
    (pid : Nat) (hl : s.lockHeld = false) (hc : s.config = some cfg) :
    ∃ s' c', AddRule s rule pid true = some (s', .ok ()) ∧
      s'.config = some c' ∧
      resolveRules s'.heap c'.rules
        = resolveRules s.heap cfg.rules ++ [storedRule cfg rule] ∧
      diskRules s'.disk = some (resolveRules s.heap cfg.rules ++ [storedRule cfg rule]) ∧
      (rule.priority = 0 → (storedRule cfg rule).priority = (cfg.rules.len : Int) + 1) ∧
      (rule.priority ≠ 0 → storedRule cfg rule = rule) ∧
      (storedRule cfg rule).priority ≠ 0 := by
  have hstep : AddRule s rule pid true
      = SaveConfig
          { s with heap := s.heap ++ [resolveRules s.heap cfg.rules ++ [storedRule cfg rule]] }
          pid true
          { cfg with rules :=
              ⟨s.heap.length, (resolveRules s.heap cfg.rules ++ [storedRule cfg rule]).length⟩ } := by
    simp [AddRule, GetConfig, hl, hc, storedRule]
  have harr : resolveRules
      (s.heap ++ [resolveRules s.heap cfg.rules ++ [storedRule cfg rule]])
      ⟨s.heap.length, (resolveRules s.heap cfg.rules ++ [storedRule cfg rule]).length⟩
      = resolveRules s.heap cfg.rules ++ [storedRule cfg rule] := by
    unfold resolveRules
    rw [show (⟨s.heap.length, (resolveRules s.heap cfg.rules ++ [storedRule cfg rule]).length⟩
        : Slice).id = s.heap.length from rfl]
    rw [getD_append_length]
    exact List.take_length _
  rw [hstep, saveConfig_lastModified_is_pid _ _ _ (by simpa using hl)]
  refine ⟨_, _, rfl, rfl, ?_, ?_, ?_, ?_, ?_⟩
  · simpa using harr
  · simpa [diskRules] using harr
  · intro h
    simp [storedRule, h]
  · intro h
    simp [storedRule, h]
  · by_cases h : rule.priority = 0
    · have hsp : (storedRule cfg rule).priority = (cfg.rules.len : Int) + 1 := by
        simp [storedRule, h]
      rw [hsp]
      omega
    · simpa [storedRule, h] using h

def c10wState : MatcherState :=
  { heap := [[c6wRule]],
    config := some ⟨⟨0, 1⟩, defaultConfigGeneral, []⟩,
    disk := .valid [c6wRule] defaultConfigGeneral [],
    ruleMap := buildRuleMap [c6wRule],
    lockHeld := false }

def c10wCfg : ConfigV := ⟨⟨0, 1⟩, defaultConfigGeneral, []⟩

def c10wRule : Rule :=
  { appName := "new".toList, windowName := [], input := "z".toList,
    enabled := true, priority := 0 }

/-- Witness for the C10 theorem: adding a priority-0 rule to a one-rule
configuration. -/
theorem addRule_priority_zero_defaulting_witness :
    ∃ s' c', AddRule c10wState c10wRule 42 true = some (s', .ok ()) ∧
      s'.config = some c' ∧
      resolveRules s'.heap c'.rules
        = resolveRules c10wState.heap c10wCfg.rules ++ [storedRule c10wCfg c10wRule] ∧
      diskRules s'.disk
        = some (resolveRules c10wState.heap c10wCfg.rules ++ [storedRule c10wCfg c10wRule]) ∧
      (c10wRule.priority = 0 →
        (storedRule c10wCfg c10wRule).priority = (c10wCfg.rules.len : Int) + 1) ∧
      (c10wRule.priority ≠ 0 → storedRule c10wCfg c10wRule = c10wRule) ∧
      (storedRule c10wCfg c10wRule).priority ≠ 0 :=
  addRule_priority_zero_defaulting c10wState c10wCfg c10wRule 42 rfl rfl

lemma resolveRules_length (heap : List (List Rule)) (sl : Slice)
    (hwf : sliceWF heap sl) : (resolveRules heap sl).length = sl.len := by
  unfold resolveRules
  rw [List.length_take, hwf.2]
  omega

/-- C4 (code bug): UpdateRule mutates the live in-memory config before the
save — GetConfig's struct copy shares the rules backing array with the
live config despite its "deep copy" comment, and `config.Rules[index] =
rule` writes through it — so when SaveConfig's disk write fails, the disk
is unchanged but the live config has already changed: the two are left out
of sync, contradicting the claim. -/
theorem updateRule_failed_save_mutates_live (s : MatcherState) (cfg : ConfigV) (idx : Nat)
    (rule : Rule) (pid : Nat)
    (hl : s.lockHeld = false) (hc : s.config = some cfg)
    (hwf : sliceWF s.heap cfg.rules) (hidx : idx < cfg.rules.len)
    (hne : rule ≠ (resolveRules s.heap cfg.rules).getD idx default) :
    ∃ s', UpdateRule s (idx : Int) rule pid false = some (s', .error .writeErr) ∧
      s'.disk = s.disk ∧ s'.config = s.config ∧
      liveRules s' = (liveRules s).set idx rule ∧
      liveRules s' ≠ liveRules s := by
  obtain ⟨hid, hlen⟩ := hwf
  have hcond : ¬((idx : Int) < 0 ∨ (cfg.rules.len : Int) ≤ (idx : Int)) := by
    push_neg
    constructor <;> omega
  have hstep : UpdateRule s (idx : Int) rule pid false
      = some ({ s with heap := heapWrite s.heap cfg.rules idx rule }, .error .writeErr) := by
    simp [UpdateRule, GetConfig, hl, hc, hcond, hidx, SaveConfig]
  have harr : resolveRules (heapWrite s.heap cfg.rules idx rule) cfg.rules
      = (resolveRules s.heap cfg.rules).set idx rule := by
    unfold resolveRules heapWrite
    have h1 : (s.heap.set cfg.rules.id ((s.heap.getD cfg.rules.id []).set idx rule)).getD
        cfg.rules.id [] = (s.heap.getD cfg.rules.id []).set idx rule := by
      rw [List.getD_eq_getElem?_getD, List.getElem?_set_self hid, Option.getD_some]
    have h3 : ((s.heap.getD cfg.rules.id []).set idx rule).take cfg.rules.len
        = (s.heap.getD cfg.rules.id []).set idx rule := by
      have hl3 : cfg.rules.len = ((s.heap.getD cfg.rules.id []).set idx rule).length := by
        rw [List.length_set, hlen]
      rw [hl3]
      exact List.take_length _
    have h2 : (s.heap.getD cfg.rules.id []).take cfg.rules.len = s.heap.getD cfg.rules.id [] := by
      rw [← hlen]
      exact List.take_length _
    rw [h1, h3, h2]
  have hlive : liveRules { s with heap := heapWrite s.heap cfg.rules idx rule }
      = (liveRules s).set idx rule := by
    simp only [liveRules, hc]
    exact harr
  refine ⟨_, hstep, rfl, rfl, hlive, ?_⟩
  rw [hlive]
  intro heq
  apply hne
  have hidx' : idx < (liveRules s).length := by
    simp only [liveRules, hc]
    rw [resolveRules_length s.heap cfg.rules ⟨hid, hlen⟩]
    exact hidx
  have hgd : ((liveRules s).set idx rule).getD idx default = rule := by
    rw [List.getD_eq_getElem?_getD, List.getElem?_set_self hidx', Option.getD_some]
  rw [heq] at hgd
  simp only [liveRules, hc] at hgd
  rw [List.getD_eq_getElem?_getD] at hgd
  rw [List.getD_eq_getElem?_getD]
  exact hgd.symm

def c4wR1 : Rule :=
  { appName := "app".toList, windowName := [], input := "y".toList,
    enabled := true, priority := 1 }

/-- Witness for the C4 theorem: replacing the only rule while the disk
write fails. -/
theorem updateRule_failed_save_mutates_live_witness :
    ∃ s', UpdateRule c10wState ((0 : Nat) : Int) c4wR1 42 false = some (s', .error .writeErr) ∧
      s'.disk = c10wState.disk ∧ s'.config = c10wState.config ∧
      liveRules s' = (liveRules c10wState).set 0 c4wR1 ∧
      liveRules s' ≠ liveRules c10wState :=
  updateRule_failed_save_mutates_live c10wState c10wCfg 0 c4wR1 42 rfl rfl
    ⟨by decide, by decide⟩ (by decide) (by decide)

/-! Model of the LoggerService: buffer, mutex, log-file generations. -/

/-- A LogEntry (timestamps modelled as naturals; field values are opaque to
every claim). -/
structure LogEntry where
  timestamp : Nat
  level : Str
  message : Str
  appName : Str
  input : Str
  action : Str
  error : Str
deriving DecidableEq, Inhabited

/-- State of the LoggerService: buffer, capacity, rotation limits, the
buffer mutex, and the log-file generations — `files.getD k none` is the
content of generation `.k`, slot 0 being the live file; `liveSize` is the
live file's byte size as seen by Stat. -/
structure LoggerState where
  logBuffer : List LogEntry
  bufferSize : Nat
  maxLogSize : Nat
  maxLogFiles : Nat
  bufMutexHeld : Bool
  files : List (Option (List LogEntry))
  liveSize : Nat
deriving DecidableEq, Inhabited

/-- os.Remove of generation `.k` (the source ignores the error). -/
def fsRemove (files : List (Option (List LogEntry))) (k : Nat) :
    List (Option (List LogEntry)) :=
  files.set k none

/-- os.Rename of generation `.k` onto `.k1`: overwrites the target; renaming
a missing source is an error the source discards, leaving files unchanged. -/
def fsRename (files : List (Option (List LogEntry))) (k k1 : Nat) :
    List (Option (List LogEntry)) :=
  match files.getD k none with
  | none => files
  | some c => (files.set k none).set k1 (some c)

/-- The shift loop `for i := maxLogFiles - 1; i >= 1; i--` of
rotateLogIfNeeded: at `i == maxLogFiles-1` the source removes the file
instead of renaming it to `.maxLogFiles`. -/
def shiftLoop (maxLogFiles : Nat) : List (Option (List LogEntry)) → Nat →
    List (Option (List LogEntry))
  | files, 0 => files
  | files, i + 1 =>
    let files := if i + 1 = maxLogFiles - 1 then fsRemove files (i + 1)
      else fsRename files (i + 1) (i + 2)
    shiftLoop maxLogFiles files i

/-- rotateLogIfNeeded from the logger service: if the live file has reached
maxLogSize, delete `.maxLogFiles`, run the shift loop, rename the live
file to `.1` and open a fresh empty live file. -/
def rotateLogIfNeeded (s : LoggerState) : LoggerState :=
  if s.liveSize < s.maxLogSize then s
  else
    let files := fsRemove s.files s.maxLogFiles
    let files := shiftLoop s.maxLogFiles files (s.maxLogFiles - 1)
    let files := fsRename files 0 1
    let files := files.set 0 (some [])
    { s with files := files, liveSize := 0 }

/-- flush from the logger service.  It takes bufferMutex.Lock first, so a
caller that already holds the mutex blocks forever (`none`): Go
sync.RWMutex is not reentrant.  Serializing an entry cannot fail in this
model, and the live file's byte growth is abstracted as one unit per
entry. -/
def flush (s : LoggerState) : Option LoggerState :=
  if s.bufMutexHeld then none
  else
    let s := { s with bufMutexHeld := true }
    if s.logBuffer = [] then some { s with bufMutexHeld := false }
    else
      let s := rotateLogIfNeeded s
      let live := (s.files.getD 0 none).getD []
      let s := { s with files := s.files.set 0 (some (live ++ s.logBuffer)),
                        liveSize := s.liveSize + s.logBuffer.length,
                        logBuffer := [] }
      some { s with bufMutexHeld := false }

/-- log from the logger service: append the entry to the buffer under
bufferMutex.Lock and, when the buffer has reached bufferSize, call flush
synchronously — still holding the mutex. -/
def log (s : LoggerState) (e : LogEntry) : Option LoggerState :=
  if s.bufMutexHeld then none
  else
    let s := { s with bufMutexHeld := true, logBuffer := s.logBuffer ++ [e] }
    if s.bufferSize ≤ s.logBuffer.length then
      match flush s with
      | none => none
      | some s' => some { s' with bufMutexHeld := false }
    else
      some { s with bufMutexHeld := false }

def c2Entry (k : Nat) : LogEntry :=
  { timestamp := k, level := "info".toList, message := [], appName := [],
    input := [], action := [], error := [] }

def c2State : LoggerState :=
  { logBuffer := [], bufferSize := 100, maxLogSize := 10485760, maxLogFiles := 5,
    bufMutexHeld := false,
    files := [some [c2Entry 0], some [c2Entry 1], some [c2Entry 2], some [c2Entry 3],
              some [c2Entry 4], none],
    liveSize := 10485760 }

/-- C2 (code bug): a rotation with generations `.1`..`.4` present deletes
generation `.4` outright — the loop's `i == maxLogFiles-1` branch removes
the file instead of renaming it to `.5` — so the rotated state holds only
`.1`..`.4`, `.5` is never created, and the old `.4` content (one of the
most recent maxLogFiles generations) is lost, contrary to the claimed
shift policy. -/
theorem rotateLog_drops_generation :
    (rotateLogIfNeeded c2State).files
      = [some [], some [c2Entry 0], some [c2Entry 1], some [c2Entry 2],
         some [c2Entry 3], none] ∧
    some [c2Entry 4] ∉ (rotateLogIfNeeded c2State).files ∧
    (rotateLogIfNeeded c2State).files.getD 5 none = none := by
  decide

/-- C3 (code bug): a record call that makes the buffer reach its capacity
never returns — log still holds bufferMutex when it calls flush, whose
Lock on the same non-reentrant mutex blocks forever — so no synchronous
flush completes and the buffer is never drained before the call returns. -/
theorem log_full_buffer_deadlocks (s : LoggerState) (e : LogEntry)
    (hm : s.bufMutexHeld = false) (hfull : s.bufferSize ≤ s.logBuffer.length + 1) :
    log s e = none := by
  simp [log, hm, flush, hfull]

def c3Entry : LogEntry :=
  { timestamp := 0, level := "info".toList, message := [], appName := [],
    input := [], action := [], error := [] }

def c3State : LoggerState :=
  { logBuffer := List.replicate 99 c3Entry, bufferSize := 100, maxLogSize := 10485760,
    maxLogFiles := 5, bufMutexHeld := false,
    files := [some [], none, none, none, none, none], liveSize := 0 }

/-- Witness for the C3 theorem: the hundredth record call on a fresh
logger (default capacity 100) with 99 buffered entries. -/
theorem log_full_buffer_deadlocks_witness : log c3State c3Entry = none :=
  log_full_buffer_deadlocks c3State c3Entry rfl (by simp [c3State])

/-! Model of the window monitor. -/

/-- State of the window monitor: the last recorded observation and whether
a change callback is registered (onWindowChange != nil). -/
structure MonitorState where
  lastWindow : Option WindowInfo
  hasCallback : Bool
deriving DecidableEq, Inhabited

/-- One tick of the StartMonitoring loop: `q` is the result of
GetActiveWindow (`none` when the query returned an error).  Returns the
new state and whether the change callback was invoked on this tick. -/
def monitorTick (s : MonitorState) (q : Option WindowInfo) : MonitorState × Bool :=
  match q with
  | none => (s, false)
  | some w =>
    match s.lastWindow with
    | none => ({ s with lastWindow := some w }, s.hasCallback)
    | some lw =>
      if lw.appName ≠ w.appName then ({ s with lastWindow := some w }, s.hasCallback)
      else (s, false)

/-- C7: with a callback registered, a poll tick invokes the callback iff
the query succeeded and the observation's appName differs from the last
recorded one (or none was recorded); a successful query with an unchanged
appName — whatever its windowName or pid — invokes nothing and changes no
state, and a failed query invokes nothing and changes no state. -/
theorem monitorTick_callback_characterization (s : MonitorState) (q : Option WindowInfo)
    (hcb : s.hasCallback = true) :
    ((monitorTick s q).2 = true ↔
      ∃ w, q = some w ∧ (s.lastWindow = none ∨
        ∃ lw, s.lastWindow = some lw ∧ lw.appName ≠ w.appName)) ∧
    (q = none → monitorTick s q = (s, false)) ∧
    (∀ w lw, q = some w → s.lastWindow = some lw → lw.appName = w.appName →
      monitorTick s q = (s, false)) := by
  refine ⟨?_, ?_, ?_⟩
  · cases q with
    | none => simp [monitorTick]
    | some w =>
      cases hlw : s.lastWindow with
      | none => simp [monitorTick, hlw, hcb]
      | some lw =>
        by_cases hap : lw.appName = w.appName
        · simp [monitorTick, hlw, hap]
        · simp [monitorTick, hlw, hap, hcb]
  · intro hq
    subst hq
    rfl
  · intro w lw hq hlw hap
    subst hq
    simp [monitorTick, hlw, hap]

def c7State : MonitorState := { lastWindow := some c1wObs, hasCallback := true }

/-- Witness for the C7 theorem: a tick that observes a different app than
the recorded one. -/
theorem monitorTick_callback_characterization_witness :
    ((monitorTick c7State (some c8Obs)).2 = true ↔
      ∃ w, (some c8Obs : Option WindowInfo) = some w ∧ (c7State.lastWindow = none ∨
        ∃ lw, c7State.lastWindow = some lw ∧ lw.appName ≠ w.appName)) ∧
    ((some c8Obs : Option WindowInfo) = none → monitorTick c7State (some c8Obs)
      = (c7State, false)) ∧
    (∀ w lw, (some c8Obs : Option WindowInfo) = some w → c7State.lastWindow = some lw →
      lw.appName = w.appName → monitorTick c7State (some c8Obs) = (c7State, false)) :=
  monitorTick_callback_characterization c7State (some c8Obs) rfl
